import Mathlib

/-!
Verification development for the taska reconciliation engine: shallow
embeddings of the overdue sweep schedule, the identity index, the color
assignment cache, the event materializer, the diff/patch generator, the
hook decision logic and the top-level invocation control flow, together
with proofs of the specified properties.

Timestamps are modelled as integers, with 0 standing for Go's zero time
value (Taskwarrior timestamps are never the zero time); durations are
integers in the same unit.  Go maps are modelled as association lists in
which a key occurs at most once.
-/

namespace Taska

/-- Task snapshot, from pkg/model.Task / pkg/taskwarrior.Task.  A `nil` or
zero timestamp field is modelled as 0; `estimate` and `actual` hold the
already-parsed durations (`est, _ := ParseDuration(task.Est)` etc.). -/
structure MTask where
  id : String
  description : String
  status : String
  project : String
  tags : List String
  notes : List String
  deadline : Int
  scheduled : Int
  start : Int
  endT : Int
  estimate : Int
  actual : Int
deriving DecidableEq, Repr

namespace Overdue

/-- Entry of the overdue sweep schedule (pkg/overdue.Entry, sorted-slice
variant). -/
structure Entry where
  uuid : String
  scheduled : Int
deriving DecidableEq, Repr

/-- The schedule's sort invariant: entries ascending by scheduled time. -/
def EntriesSorted (l : List Entry) : Prop :=
  l.Pairwise (fun a b => a.scheduled ≤ b.scheduled)

instance : DecidablePred EntriesSorted := fun l =>
  List.instDecidablePairwise l

/-- Table.Sweep: walk the ascending list from the front, collecting and
removing every entry strictly before `now`, stopping at the first entry
not yet due.  Returns the swept uuids and the remaining entries. -/
def Sweep (now : Int) : List Entry → List String × List Entry
  | [] => ([], [])
  | e :: rest =>
    if e.scheduled < now then
      let r := Sweep now rest
      (e.uuid :: r.1, r.2)
    else ([], e :: rest)

/-- Table.Remove: delete the (first) entry with the given uuid. -/
def Remove (uuid : String) : List Entry → List Entry
  | [] => []
  | e :: rest => if e.uuid = uuid then rest else e :: Remove uuid rest

/-- Insertion step of the sort re-establishing the schedule invariant. -/
def insertEntry (e : Entry) : List Entry → List Entry
  | [] => [e]
  | f :: rest =>
    if e.scheduled ≤ f.scheduled then e :: f :: rest else f :: insertEntry e rest

/-- Sorting by scheduled time (models the sort.Slice call in Table.Update). -/
def sortEntries : List Entry → List Entry
  | [] => []
  | e :: rest => insertEntry e (sortEntries rest)

/-- Table.Update: remove the entry for the task, then add it back (and
re-sort) only if the task is pending and has a non-zero scheduled time. -/
def Update (task : MTask) (t : List Entry) : List Entry :=
  let t' := Remove task.id t
  if task.status = "pending" ∧ task.scheduled ≠ 0 then
    sortEntries (t' ++ [{ uuid := task.id, scheduled := task.scheduled }])
  else t'

end Overdue

namespace EventIndex

/-- EventIndex.Get: Go map lookup; a missing key yields the empty string. -/
def Get (m : List (String × String)) (taskID : String) : String :=
  (((m.find? (fun kv => kv.1 == taskID)).map (fun kv => kv.2)).getD "")

/-- Go map assignment on the association-list model. -/
def mapAssign : List (String × String) → String → String → List (String × String)
  | [], t, e => [(t, e)]
  | kv :: rest, t, e =>
    if kv.1 = t then (t, e) :: rest else kv :: mapAssign rest t e

/-- EventIndex.Set: write the mapping only when the stored value differs
(the dirty-flag guard). -/
def Set (m : List (String × String)) (taskID eventID : String) :
    List (String × String) :=
  if Get m taskID = eventID then m else mapAssign m taskID eventID

/-- EventIndex.Remove: delete the mapping for the task if present. -/
def Remove (m : List (String × String)) (taskID : String) :
    List (String × String) :=
  m.filter (fun kv => !(kv.1 == taskID))

end EventIndex

/-- Target action decided by the hook for the authoritative snapshot. -/
inductive Action where
  | sync
  | delete
deriving DecidableEq, Repr

/-- Hook decision logic of main.go (step 9): one snapshot is an
on-add/refresh and is always synced; with two or more snapshots the
second is authoritative, and `waiting` status, a BLOCKED tag, or
`deleted` status selects the delete action. -/
def decideAction : List MTask → Option (MTask × Action)
  | [] => none
  | [t] => some (t, Action.sync)
  | _ :: newT :: _ =>
    let isBlockedOrWaiting := newT.status == "waiting" || newT.tags.contains "BLOCKED"
    if isBlockedOrWaiting then some (newT, Action.delete)
    else if newT.status == "deleted" then some (newT, Action.delete)
    else some (newT, Action.sync)

/-- Observable phases of one hook invocation of main.go. -/
inductive Step where
  | sweepPass
  | processHookTask
  | writeStdout
  | saveSweepTable
deriving DecidableEq, Repr

/-- Control-flow skeleton of main.go after the hook input is parsed.
The deferred function (registered right after parsing) writes the last
snapshot to stdout when there was one and then saves the sweep table; it
runs when main returns, after every other phase.  The body runs the
sweep pass (when the table loaded) and then processes the hook's own
task (when there was input), or returns early when the calendar client
cannot be created.  Error paths inside sweep and hook processing only
log and fall through, so they do not change the phase sequence. -/
def mainSteps (hasSweepTable gClientOk : Bool) (numTasks : Nat) : List Step :=
  (if gClientOk then
      (if hasSweepTable then [Step.sweepPass] else [])
        ++ (if numTasks = 0 then [] else [Step.processHookTask])
    else [])
    ++ (if numTasks ≠ 0 then [Step.writeStdout] else [])
    ++ (if hasSweepTable then [Step.saveSweepTable] else [])

/-- Remote calendar event as seen by the delete path: its service id and
the originating task id stored in the private extended property. -/
structure RemoteEvent where
  id : String
  taskwarriorId : String
deriving DecidableEq, Repr

/-- CalendarClient.GetEventByTaskID: first remote event whose private
`taskwarrior_id` property equals the task id. -/
def GetEventByTaskID (events : List RemoteEvent) (taskID : String) : Option RemoteEvent :=
  events.find? (fun e => e.taskwarriorId == taskID)

/-- State touched by the delete action: the remote event list, the
identity index mappings and the sweep schedule. -/
structure SyncState where
  remote : List RemoteEvent
  mappings : List (String × String)
  sweepEntries : List Overdue.Entry
deriving DecidableEq, Repr

/-- Delete action of main.go (lines 259-274): look the event up remotely
by task id, delete it when found, then remove the sweep schedule entry.
The identity index is not consulted and not modified on this path. -/
def runDeleteAction (taskID : String) (st : SyncState) : SyncState :=
  match GetEventByTaskID st.remote taskID with
  | some ev =>
    { st with
      remote := st.remote.filter (fun e => !(e.id == ev.id)),
      sweepEntries := Overdue.Remove taskID st.sweepEntries }
  | none => { st with sweepEntries := Overdue.Remove taskID st.sweepEntries }

namespace Colors

/-- Per-project state of the color assignment cache
(pkg/colors.ProjectState). -/
structure ProjectState where
  colorID : String
  activeTasks : Int
  lastModified : Int
deriving DecidableEq, Repr

/-- The Projects map of the color cache, as an association list whose
order stands for the map's iteration order; a project name occurs at
most once. -/
abbrev Cache := List (String × ProjectState)

/-- Go map lookup on the Projects map. -/
def lookup (c : Cache) (project : String) : Option ProjectState :=
  (c.find? (fun kv => kv.1 == project)).map (fun kv => kv.2)

/-- Refresh a project's `LastModified` to now (the existing-entry branch
of GetColorID). -/
def touch (c : Cache) (project : String) (now : Int) : Cache :=
  c.map (fun kv =>
    if kv.1 = project then (kv.1, { kv.2 with lastModified := now }) else kv)

/-- The set of colors currently assigned to some project. -/
def usedColors (c : Cache) : List String := c.map (fun kv => kv.2.colorID)

/-- The palette: Google Calendar event colors "1" to "11". -/
def palette : List String := (List.range' 1 11).map (fun i => toString i)

/-- The ascending scan for an unused palette slot in assignColor. -/
def findFreeColor (used : List String) : List String → Option String
  | [] => none
  | col :: rest => if col ∈ used then findFreeColor used rest else some col

/-- The LRU scan of assignColor: carry the first entry, replace the
candidate whenever a strictly older `LastModified` is encountered. -/
def selectOldestGo (acc : String × ProjectState) : Cache → String × ProjectState
  | [] => acc
  | kv :: rest =>
    if kv.2.lastModified < acc.2.lastModified then selectOldestGo kv rest
    else selectOldestGo acc rest

/-- The oldest-entry selection over the whole Projects map. -/
def selectOldest : Cache → Option (String × ProjectState)
  | [] => none
  | kv :: rest => some (selectOldestGo kv rest)

/-- ColorCache.assignColor: take the first free palette slot, else evict
the project with the oldest `LastModified` and reuse its color; the
fallback "1" is only reachable when the map is empty or the selected
oldest project has an empty name. -/
def assignColor (now : Int) (c : Cache) (project : String) : String × Cache :=
  match findFreeColor (usedColors c) palette with
  | some id =>
    (id, c ++ [(project, { colorID := id, activeTasks := 1, lastModified := now })])
  | none =>
    match selectOldest c with
    | some oldest =>
      if oldest.1 ≠ "" then
        (oldest.2.colorID,
          c.filter (fun kv => decide (kv.1 ≠ oldest.1))
            ++ [(project, { colorID := oldest.2.colorID, activeTasks := 1, lastModified := now })])
      else ("1", c)
    | none => ("1", c)

/-- ColorCache.GetColorID: empty project names get the fixed gray "14"
without touching the cache; a known project is refreshed and keeps its
color; a new project goes through assignColor.  `isTaskActive` is
accepted but does not affect the result, as in the code. -/
def GetColorID (now : Int) (c : Cache) (project : String) (isTaskActive : Bool) :
    String × Cache :=
  if project = "" then ("14", c)
  else
    match lookup c project with
    | some st => (st.colorID, touch c project now)
    | none => assignColor now c project

end Colors

/-- Local copy of a calendar event: the fields ConvertTaskToCalendarEvent
produces and EventNeedsUpdate compares.  Start and end are the stored
timestamp strings; `taskwarriorId` is the private extended property. -/
structure CalEvent where
  summary : String
  description : String
  colorId : String
  startDT : String
  endDT : String
  taskwarriorId : String
deriving DecidableEq, Repr

/-- Field-level patch produced by EventNeedsUpdate: unset string fields
are empty (Go zero values); start and end are carried as a pair, set
together or not at all. -/
structure PatchEvent where
  summary : String
  description : String
  colorId : String
  startEnd : Option (String × String)
deriving DecidableEq, Repr

/-- EventNeedsUpdate (patch-returning version): compare summary,
description, color, and the parsed (start, end) pair; `parse` stands for
the RFC3339 parser, returning none on a malformed timestamp string, in
which case the whole comparison reports the error (outer none) and no
patch is produced. -/
def EventNeedsUpdate (parse : String → Option Int)
    (existingEvent targetEvent : CalEvent) : Option (Option PatchEvent) :=
  let sumDiff := existingEvent.summary != targetEvent.summary
  let descDiff := existingEvent.description != targetEvent.description
  let colDiff := existingEvent.colorId != targetEvent.colorId
  match parse existingEvent.startDT, parse targetEvent.startDT,
      parse existingEvent.endDT, parse targetEvent.endDT with
  | some existingStart, some targetStart, some existingEnd, some targetEnd =>
    let timeDiff := !(existingStart == targetStart) || !(existingEnd == targetEnd)
    if sumDiff || descDiff || colDiff || timeDiff then
      some (some
        { summary := if sumDiff then targetEvent.summary else ""
          description := if descDiff then targetEvent.description else ""
          colorId := if colDiff then targetEvent.colorId else ""
          startEnd :=
            if timeDiff then some (targetEvent.startDT, targetEvent.endDT) else none })
    else some none
  | _, _, _, _ => none

/-- The fixed default event window of the materializer (30 minutes). -/
def defaultDuration : Int := 30 * 60

/-- One minute, the threshold of the schedule-vs-start drift line. -/
def minuteDuration : Int := 60

/-- Rounding of a non-negative duration to the nearest whole minute,
halves up (time.Duration.Round with a minute). -/
def roundToMinutePos (d : Int) : Int :=
  let q := d / minuteDuration
  let r := d % minuteDuration
  if 2 * r ≥ minuteDuration then (q + 1) * minuteDuration else q * minuteDuration

/-- time.Duration.Round to a minute: halves away from zero. -/
def roundToMinute (d : Int) : Int :=
  if d < 0 then - roundToMinutePos (-d) else roundToMinutePos d

/-- The tag header of the event description: hash-prefixed tokens. -/
def renderTags (tags : List String) : String :=
  tags.foldl (fun acc tag => acc ++ "#" ++ tag ++ " ") ""

/-- The annotation list of the event description. -/
def renderNotes (notes : List String) : String :=
  notes.foldl (fun acc ann => acc ++ "‣ " ++ ann ++ "\n") ""

/-- Description builder of ConvertTaskToCalendarEvent: tags, status,
project, uuid, the accounting block, and the annotations.  `fmtDur`
stands for Go's duration rendering. -/
def buildDescription (fmtDur : Int → String) (task : MTask) : String :=
  (if task.tags ≠ [] then renderTags task.tags ++ "\n\n" else "")
    ++ "Status: " ++ task.status ++ "\n"
    ++ (if task.project ≠ "" then "Project: " ++ task.project ++ "\n" else "")
    ++ "UUID: " ++ task.id ++ "\n"
    ++ "\nAccounting:\n"
    ++ (if task.estimate > 0 then "• estimated: " ++ fmtDur task.estimate ++ "\n" else "")
    ++ (if task.start ≠ 0 ∧ task.scheduled ≠ 0 then
          let diff := task.start - task.scheduled
          if diff > minuteDuration then
            "• started late by: " ++ fmtDur (roundToMinute diff) ++ "\n"
          else if diff < -minuteDuration then
            "• started early by: " ++ fmtDur (roundToMinute (-diff)) ++ "\n"
          else ""
        else "")
    ++ (if task.status = "completed" then
          let spent :=
            if task.actual > 0 then task.actual
            else if task.start ≠ 0 ∧ task.endT ≠ 0 then task.endT - task.start
            else 0
          if spent > 0 then
            "• spent: " ++ fmtDur spent ++ "\n"
              ++ (if task.estimate > 0 then
                    let d := spent - task.estimate
                    if d > 0 then "• over estimate by: " ++ fmtDur d ++ "\n"
                    else if d < 0 then "• under estimate by: " ++ fmtDur (-d) ++ "\n"
                    else ""
                  else "")
          else ""
        else "")
    ++ (if task.notes ≠ [] then "\nNotes:\n" ++ renderNotes task.notes else "")

/-- Status-dependent title marker: completed, started, overdue, plain. -/
def summaryMarker (now : Int) (task : MTask) : String :=
  if task.status = "completed" then "✓"
  else if task.start ≠ 0 then "‣"
  else if (task.deadline ≠ 0 ∧ task.deadline < now)
      ∨ (task.scheduled ≠ 0 ∧ task.scheduled < now) then "!"
  else ""

/-- Event title: marker-prefixed description, or the bare description. -/
def summaryOf (now : Int) (task : MTask) : String :=
  let marker := summaryMarker now task
  if marker = "" then task.description else marker ++ " " ++ task.description

/-- Color resolution of the materializer: `cacheResult` is the outcome
of loading the color cache; on a load failure the default "1" is used. -/
def colorFor (now : Int) (cacheResult : Option Colors.Cache) (task : MTask) : String :=
  match cacheResult with
  | some cache =>
    (Colors.GetColorID now cache task.project
      (task.status == "pending" || task.status == "waiting")).1
  | none => "1"

/-- The estimate, or the default window when no estimate is set. -/
def estimateOrDefault (task : MTask) : Int :=
  if task.estimate > 0 then task.estimate else defaultDuration

/-- Backward extension of a completed task: actual, else estimate, else
the default window. -/
def completedDuration (task : MTask) : Int :=
  if task.actual > 0 then task.actual
  else if task.estimate > 0 then task.estimate
  else defaultDuration

/-- ConvertTaskToCalendarEvent: materialize a task snapshot into its
target event.  Completed tasks anchor on (end, else now) and extend
backward; started tasks anchor forward from start; then scheduled, then
deadline; with none of the four timestamps the task is rejected with the
no-schedulable-time error.  `fmtTime` stands for the RFC3339 formatting
of the computed times. -/
def ConvertTaskToCalendarEvent (now : Int) (cacheResult : Option Colors.Cache)
    (fmtDur fmtTime : Int → String) (task : MTask) : Except String CalEvent :=
  let timeWindow : Except String (Int × Int) :=
    if task.status = "completed" then
      let endV := if task.endT ≠ 0 then task.endT else now
      Except.ok (endV - completedDuration task, endV)
    else if task.start ≠ 0 then
      Except.ok (task.start, task.start + estimateOrDefault task)
    else if task.scheduled ≠ 0 then
      Except.ok (task.scheduled, task.scheduled + estimateOrDefault task)
    else if task.deadline ≠ 0 then
      Except.ok (task.deadline, task.deadline + estimateOrDefault task)
    else
      Except.error ("task has no date usage (due, start, scheduled, or end): " ++ task.id)
  match timeWindow with
  | Except.error msg => Except.error msg
  | Except.ok se =>
    Except.ok
      { summary := summaryOf now task
        description := buildDescription fmtDur task
        colorId := colorFor now cacheResult task
        startDT := fmtTime se.1
        endDT := fmtTime se.2
        taskwarriorId := task.id }

/-- Whether materialization produced an event. -/
def materializeOk : Except String CalEvent → Bool
  | Except.ok _ => true
  | Except.error _ => false

/-- The end timestamp of a materialized event, when one was produced. -/
def materializedEnd : Except String CalEvent → Option String
  | Except.ok ev => some ev.endDT
  | Except.error _ => none

/-! ## Concrete inputs used by counterexamples and witnesses -/

/-- A single-snapshot hook input whose task has status `deleted` and no
timestamps at all. -/
def exTaskDeleted : MTask :=
  { id := "11111111-1111-1111-1111-111111111111", description := "obsolete task",
    status := "deleted", project := "", tags := [], notes := [],
    deadline := 0, scheduled := 0, start := 0, endT := 0, estimate := 0, actual := 0 }

/-- A completed task with a non-zero scheduled time. -/
def exTaskCompleted5 : MTask :=
  { id := "a", description := "done task",
    status := "completed", project := "", tags := [], notes := [],
    deadline := 0, scheduled := 5, start := 0, endT := 0, estimate := 0, actual := 0 }

/-- A pending task with a non-zero scheduled time. -/
def exTaskPending7 : MTask :=
  { id := "b", description := "pending task",
    status := "pending", project := "", tags := [], notes := [],
    deadline := 0, scheduled := 7, start := 0, endT := 0, estimate := 0, actual := 0 }

/-- A completed task all four of whose timestamps are absent. -/
def exTaskCompletedNoDates : MTask :=
  { id := "c", description := "finished off the books",
    status := "completed", project := "", tags := [], notes := [],
    deadline := 0, scheduled := 0, start := 0, endT := 0, estimate := 0, actual := 0 }

/-- A sorted three-entry sweep schedule. -/
def exSchedule : List Overdue.Entry := [⟨"a", 1⟩, ⟨"b", 2⟩, ⟨"c", 5⟩]

/-- A sync state whose remote event, index mapping and sweep entry all
refer to task t1. -/
def exDeleteState : SyncState :=
  { remote := [{ id := "e1", taskwarriorId := "t1" }],
    mappings := [("t1", "e1")],
    sweepEntries := [{ uuid := "t1", scheduled := 50 }] }

/-- A calendar event whose stored timestamps are unparsable junk. -/
def exCalEvent : CalEvent :=
  { summary := "‣ pending task", description := "Status: pending\nUUID: b\n",
    colorId := "2", startDT := "not-a-timestamp", endDT := "also-not-a-timestamp",
    taskwarriorId := "b" }

/-- A fully assigned color cache: 11 projects holding the 11 palette
colors, with p1 the least recently touched. -/
def exColorCache : Colors.Cache :=
  [("p1", { colorID := "1", activeTasks := 1, lastModified := 10 }),
   ("p2", { colorID := "2", activeTasks := 1, lastModified := 20 }),
   ("p3", { colorID := "3", activeTasks := 1, lastModified := 30 }),
   ("p4", { colorID := "4", activeTasks := 1, lastModified := 40 }),
   ("p5", { colorID := "5", activeTasks := 1, lastModified := 50 }),
   ("p6", { colorID := "6", activeTasks := 1, lastModified := 60 }),
   ("p7", { colorID := "7", activeTasks := 1, lastModified := 70 }),
   ("p8", { colorID := "8", activeTasks := 1, lastModified := 80 }),
   ("p9", { colorID := "9", activeTasks := 1, lastModified := 90 }),
   ("p10", { colorID := "10", activeTasks := 1, lastModified := 100 }),
   ("p11", { colorID := "11", activeTasks := 1, lastModified := 110 })]

/-! ## Helper lemmas -/

theorem EventIndex.Get_mapAssign (t e : String) :
    ∀ m : List (String × String), EventIndex.Get (EventIndex.mapAssign m t e) t = e := by
  intro m
  induction m with
  | nil => simp [EventIndex.Get, EventIndex.mapAssign]
  | cons kv rest ih =>
    by_cases h : kv.1 = t
    · simp [EventIndex.Get, EventIndex.mapAssign, h]
    · simpa [EventIndex.Get, EventIndex.mapAssign, h] using ih

theorem Overdue.mem_insertEntry (e a : Overdue.Entry) :
    ∀ l : List Overdue.Entry, a ∈ Overdue.insertEntry e l ↔ a = e ∨ a ∈ l := by
  intro l
  induction l with
  | nil => simp [Overdue.insertEntry]
  | cons f rest ih =>
    by_cases h : e.scheduled ≤ f.scheduled
    · simp [Overdue.insertEntry, h]
    · simp [Overdue.insertEntry, h, ih]
      tauto

theorem Overdue.sorted_insertEntry (e : Overdue.Entry) :
    ∀ l : List Overdue.Entry, Overdue.EntriesSorted l →
      Overdue.EntriesSorted (Overdue.insertEntry e l) := by
  intro l
  induction l with
  | nil => intro _; simp [Overdue.insertEntry, Overdue.EntriesSorted]
  | cons f rest ih =>
    intro hs
    rw [Overdue.EntriesSorted, List.pairwise_cons] at hs
    obtain ⟨hf, hrest⟩ := hs
    by_cases h : e.scheduled ≤ f.scheduled
    · rw [Overdue.insertEntry, if_pos h, Overdue.EntriesSorted, List.pairwise_cons]
      refine ⟨?_, ?_⟩
      · intro b hb
        rcases List.mem_cons.1 hb with hb | hb
        · exact hb ▸ h
        · exact le_trans h (hf b hb)
      · rw [List.pairwise_cons]
        exact ⟨hf, hrest⟩
    · rw [Overdue.insertEntry, if_neg h, Overdue.EntriesSorted, List.pairwise_cons]
      refine ⟨?_, ih hrest⟩
      intro b hb
      rcases (Overdue.mem_insertEntry e b rest).1 hb with hb | hb
      · exact hb ▸ le_of_not_le h
      · exact hf b hb

theorem Overdue.sorted_sortEntries :
    ∀ l : List Overdue.Entry, Overdue.EntriesSorted (Overdue.sortEntries l) := by
  intro l
  induction l with
  | nil => simp [Overdue.sortEntries, Overdue.EntriesSorted]
  | cons e rest ih => exact Overdue.sorted_insertEntry e _ ih

theorem Overdue.mem_sortEntries (a : Overdue.Entry) :
    ∀ l : List Overdue.Entry, a ∈ Overdue.sortEntries l ↔ a ∈ l := by
  intro l
  induction l with
  | nil => simp [Overdue.sortEntries]
  | cons e rest ih =>
    simp [Overdue.sortEntries, Overdue.mem_insertEntry, ih]

theorem Overdue.Remove_uuid_not_mem (uuid : String) :
    ∀ l : List Overdue.Entry, (l.map (fun e => e.uuid)).Nodup →
      ∀ e ∈ Overdue.Remove uuid l, e.uuid ≠ uuid := by
  intro l
  induction l with
  | nil => intro _ e he; simp [Overdue.Remove] at he
  | cons f rest ih =>
    intro hnd e he
    rw [List.map_cons, List.nodup_cons] at hnd
    obtain ⟨hf, hrest⟩ := hnd
    by_cases h : f.uuid = uuid
    · rw [Overdue.Remove, if_pos h] at he
      intro hbad
      exact hf (h ▸ hbad ▸ List.mem_map_of_mem (fun e => e.uuid) he)
    · rw [Overdue.Remove, if_neg h] at he
      rcases List.mem_cons.1 he with rfl | he
      · exact h
      · exact ih hrest e he

theorem Colors.findFreeColor_eq_none (used : List String) :
    ∀ pal : List String,
      Colors.findFreeColor used pal = none ↔ ∀ col ∈ pal, col ∈ used := by
  intro pal
  induction pal with
  | nil => simp [Colors.findFreeColor]
  | cons col rest ih =>
    by_cases h : col ∈ used
    · simp [Colors.findFreeColor, h, ih]
    · simp [Colors.findFreeColor, h]

theorem Colors.findFreeColor_some_not_used (used : List String) :
    ∀ (pal : List String) (col : String),
      Colors.findFreeColor used pal = some col → col ∉ used := by
  intro pal
  induction pal with
  | nil => intro col h; simp [Colors.findFreeColor] at h
  | cons c rest ih =>
    intro col h
    by_cases hc : c ∈ used
    · rw [Colors.findFreeColor, if_pos hc] at h
      exact ih col h
    · rw [Colors.findFreeColor, if_neg hc] at h
      injection h with h'
      exact h' ▸ hc

theorem Colors.selectOldestGo_mem :
    ∀ (l : Colors.Cache) (acc : String × Colors.ProjectState),
      Colors.selectOldestGo acc l = acc ∨ Colors.selectOldestGo acc l ∈ l := by
  intro l
  induction l with
  | nil => intro acc; left; rfl
  | cons kv rest ih =>
    intro acc
    rw [Colors.selectOldestGo]
    by_cases h : kv.2.lastModified < acc.2.lastModified
    · rw [if_pos h]
      rcases ih kv with h' | h'
      · right; rw [h']; exact List.mem_cons_self kv rest
      · right; exact List.mem_cons_of_mem kv h'
    · rw [if_neg h]
      rcases ih acc with h' | h'
      · left; exact h'
      · right; exact List.mem_cons_of_mem kv h'

theorem Colors.selectOldest_mem (c : Colors.Cache)
    (p : String × Colors.ProjectState) (h : Colors.selectOldest c = some p) :
    p ∈ c := by
  cases c with
  | nil => simp [Colors.selectOldest] at h
  | cons kv rest =>
    rw [Colors.selectOldest] at h
    injection h with h'
    subst h'
    rcases Colors.selectOldestGo_mem rest kv with h2 | h2
    · rw [h2]; exact List.mem_cons_self kv rest
    · exact List.mem_cons_of_mem kv h2

theorem Colors.selectOldestGo_unique_min (p : String × Colors.ProjectState) :
    ∀ (l : Colors.Cache) (acc : String × Colors.ProjectState),
      (acc = p ∨ (p ∈ l ∧ p.2.lastModified < acc.2.lastModified)) →
      (∀ e ∈ l, e ≠ p → p.2.lastModified < e.2.lastModified) →
      Colors.selectOldestGo acc l = p := by
  intro l
  induction l with
  | nil =>
    intro acc hacc _
    rcases hacc with h | ⟨h, _⟩
    · exact h
    · cases h
  | cons kv rest ih =>
    intro acc hacc hmin
    rw [Colors.selectOldestGo]
    by_cases hc : kv.2.lastModified < acc.2.lastModified
    · rw [if_pos hc]
      apply ih
      · by_cases hkp : kv = p
        · left; exact hkp
        · right
          have hplt : p.2.lastModified < kv.2.lastModified :=
            hmin kv (List.mem_cons_self kv rest) hkp
          rcases hacc with rfl | ⟨hpmem, hlt⟩
          · exact absurd hc (not_lt.2 (le_of_lt hplt))
          · refine ⟨?_, hplt⟩
            rcases List.mem_cons.1 hpmem with rfl | hmem
            · exact absurd rfl hkp
            · exact hmem
      · intro e he hep
        exact hmin e (List.mem_cons_of_mem kv he) hep
    · rw [if_neg hc]
      apply ih
      · rcases hacc with rfl | ⟨hpmem, hlt⟩
        · left; rfl
        · right
          refine ⟨?_, hlt⟩
          rcases List.mem_cons.1 hpmem with rfl | hmem
          · exact absurd hlt hc
          · exact hmem
      · intro e he hep
        exact hmin e (List.mem_cons_of_mem kv he) hep

theorem Colors.selectOldest_unique_min (c : Colors.Cache)
    (p : String × Colors.ProjectState) (hp : p ∈ c)
    (hmin : ∀ e ∈ c, e ≠ p → p.2.lastModified < e.2.lastModified) :
    Colors.selectOldest c = some p := by
  cases c with
  | nil => cases hp
  | cons kv rest =>
    rw [Colors.selectOldest]
    refine congrArg some (Colors.selectOldestGo_unique_min p rest kv ?_ ?_)
    · by_cases hkp : kv = p
      · left; exact hkp
      · right
        refine ⟨?_, hmin kv (List.mem_cons_self kv rest) hkp⟩
        rcases List.mem_cons.1 hp with h | h
        · exact absurd h.symm hkp
        · exact h
    · intro e he hep
      exact hmin e (List.mem_cons_of_mem kv he) hep

theorem Colors.touch_keys (project : String) (now : Int) (c : Colors.Cache) :
    (Colors.touch c project now).map (fun kv => kv.1) = c.map (fun kv => kv.1) := by
  rw [Colors.touch, List.map_map]
  apply List.map_congr_left
  intro kv _
  by_cases h : kv.1 = project <;> simp [Function.comp, h]

theorem Colors.touch_colors (project : String) (now : Int) (c : Colors.Cache) :
    Colors.usedColors (Colors.touch c project now) = Colors.usedColors c := by
  rw [Colors.usedColors, Colors.usedColors, Colors.touch, List.map_map]
  apply List.map_congr_left
  intro kv _
  by_cases h : kv.1 = project <;> simp [Function.comp, h]

theorem Colors.lookup_eq_none (c : Colors.Cache) (project : String)
    (h : Colors.lookup c project = none) : ∀ kv ∈ c, kv.1 ≠ project := by
  intro kv hkv
  rw [Colors.lookup] at h
  have hf : c.find? (fun kv => kv.1 == project) = none := by
    cases hff : c.find? (fun kv => kv.1 == project) with
    | none => rfl
    | some x => rw [hff] at h; simp at h
  have := List.find?_eq_none.1 hf kv hkv
  simpa using this

theorem nodup_append_singleton {α : Type} (l : List α) (a : α)
    (h : l.Nodup) (ha : a ∉ l) : (l ++ [a]).Nodup := by
  rw [List.nodup_append]
  exact ⟨h, List.nodup_singleton a, by simpa using ha⟩

/-! ## C1 -/

/-- C1 counterexample: a hook invocation carrying one snapshot whose
status is `deleted` takes the sync action, not the delete action, so the
decision rule does not hold regardless of snapshot arity. -/
theorem c1_counterexample :
    exTaskDeleted.status = "deleted" ∧
    decideAction [exTaskDeleted] = some (exTaskDeleted, Action.sync) ∧
    decideAction [exTaskDeleted] ≠ some (exTaskDeleted, Action.delete) := by
  refine ⟨rfl, rfl, ?_⟩
  decide

/-- C1 amended: a single-snapshot invocation always takes the sync
action; for an invocation with two or more snapshots the second snapshot
is authoritative and the action is delete exactly when its status is
`waiting`, or it carries the BLOCKED tag, or its status is `deleted`,
and sync otherwise. -/
theorem c1_decision_amended :
    (∀ t : MTask, decideAction [t] = some (t, Action.sync)) ∧
    (∀ (old newT : MTask) (rest : List MTask),
      decideAction (old :: newT :: rest) =
        some (newT,
          if newT.status = "waiting" ∨ newT.tags.contains "BLOCKED" = true
              ∨ newT.status = "deleted"
          then Action.delete else Action.sync)) := by
  refine ⟨fun t => rfl, fun old newT rest => ?_⟩
  by_cases h1 : newT.status = "waiting" <;>
    by_cases h2 : newT.tags.contains "BLOCKED" = true <;>
      by_cases h3 : newT.status = "deleted" <;>
        simp [decideAction, h1, h2, h3] <;> split <;> rfl

/-! ## C4 -/

/-- C4: on a schedule sorted ascending by scheduled time, Sweep returns,
in list (hence ascending) order, exactly the uuids of the entries
strictly before `now`, leaves exactly the remaining entries (still
sorted), and a second Sweep with the same `now` returns nothing. -/
theorem c4_sweep_sorted (now : Int) (t : List Overdue.Entry)
    (hs : Overdue.EntriesSorted t) :
    (Overdue.Sweep now t).1
        = (t.filter (fun e => decide (e.scheduled < now))).map (fun e => e.uuid) ∧
    (Overdue.Sweep now t).2 = t.filter (fun e => !decide (e.scheduled < now)) ∧
    Overdue.EntriesSorted (Overdue.Sweep now t).2 ∧
    (Overdue.Sweep now (Overdue.Sweep now t).2).1 = [] := by
  induction t with
  | nil => refine ⟨rfl, rfl, ?_, rfl⟩; simp [Overdue.Sweep, Overdue.EntriesSorted]
  | cons e rest ih =>
    have hs' := hs
    rw [Overdue.EntriesSorted, List.pairwise_cons] at hs'
    obtain ⟨hf, hrest⟩ := hs'
    have ihr := ih hrest
    by_cases h : e.scheduled < now
    · refine ⟨?_, ?_, ?_, ?_⟩
      · simpa [Overdue.Sweep, h] using ihr.1
      · simpa [Overdue.Sweep, h] using ihr.2.1
      · simpa [Overdue.Sweep, h] using ihr.2.2.1
      · simpa [Overdue.Sweep, h] using ihr.2.2.2
    · have hall : ∀ b ∈ rest, ¬ (b.scheduled < now) := fun b hb hlt =>
        h (lt_of_le_of_lt (hf b hb) hlt)
      have hnil : (e :: rest).filter (fun b => decide (b.scheduled < now)) = [] := by
        rw [List.filter_eq_nil_iff]
        intro b hb
        rcases List.mem_cons.1 hb with rfl | hb
        · simpa using h
        · simpa using hall b hb
      have hself : (e :: rest).filter (fun b => !decide (b.scheduled < now)) = e :: rest := by
        rw [List.filter_eq_self]
        intro b hb
        rcases List.mem_cons.1 hb with rfl | hb
        · simpa using h
        · simpa using hall b hb
      refine ⟨?_, ?_, ?_, ?_⟩
      · simp [Overdue.Sweep, h, hnil]
      · simp [Overdue.Sweep, h, hself]
      · simpa [Overdue.Sweep, h] using hs
      · simp [Overdue.Sweep, h]

/-- C4 witness: the sorted schedule [a@1, b@2, c@5] swept at time 3. -/
theorem c4_sweep_sorted_witness :
    (Overdue.Sweep 3 exSchedule).1
        = (exSchedule.filter (fun e => decide (e.scheduled < 3))).map (fun e => e.uuid) ∧
    (Overdue.Sweep 3 exSchedule).2 = exSchedule.filter (fun e => !decide (e.scheduled < 3)) ∧
    Overdue.EntriesSorted (Overdue.Sweep 3 exSchedule).2 ∧
    (Overdue.Sweep 3 (Overdue.Sweep 3 exSchedule).2).1 = [] :=
  c4_sweep_sorted 3 exSchedule (by decide)

/-! ## C5 -/

/-- C5 counterexample: Update with a non-zero scheduled time but status
`completed` leaves no entry for the task; on a table already holding the
entry it even removes it, so a non-zero scheduled time does not imply
presence after the call. -/
theorem c5_counterexample :
    exTaskCompleted5.scheduled = 5 ∧
    Overdue.Update exTaskCompleted5 [] = [] ∧
    Overdue.Update exTaskCompleted5 [⟨"a", 5⟩] = [] := by
  refine ⟨rfl, rfl, rfl⟩

/-- C5 amended: Update with a zero scheduled time is exactly Remove of
the task id, as is Update with any status other than pending; only when
the task is pending with a non-zero scheduled time is the entry present
after the call, and then the table is sorted ascending again. -/
theorem c5_update_amended (task : MTask) (t : List Overdue.Entry) :
    (¬ (task.status = "pending" ∧ task.scheduled ≠ 0) →
        Overdue.Update task t = Overdue.Remove task.id t) ∧
    (task.status = "pending" → task.scheduled ≠ 0 →
        ({ uuid := task.id, scheduled := task.scheduled } : Overdue.Entry)
            ∈ Overdue.Update task t ∧
        Overdue.EntriesSorted (Overdue.Update task t)) := by
  constructor
  · intro h
    rw [Overdue.Update, if_neg h]
  · intro h1 h2
    rw [Overdue.Update, if_pos ⟨h1, h2⟩]
    refine ⟨?_, Overdue.sorted_sortEntries _⟩
    rw [Overdue.mem_sortEntries]
    simp

/-- C5 witness: updating an empty table with a pending task scheduled at
7 leaves its entry present in a sorted table. -/
theorem c5_update_amended_witness :
    ({ uuid := "b", scheduled := 7 } : Overdue.Entry)
        ∈ Overdue.Update exTaskPending7 [] ∧
    Overdue.EntriesSorted (Overdue.Update exTaskPending7 []) :=
  (c5_update_amended exTaskPending7 []).2 rfl (by decide)

/-! ## C7 -/

/-- C7 counterexample: with the event found and deleted remotely and the
sweep entry removed, the identity index mapping for the task is still
present afterwards — the delete path never removes index entries. -/
theorem c7_counterexample :
    (runDeleteAction "t1" exDeleteState).remote = [] ∧
    (runDeleteAction "t1" exDeleteState).sweepEntries = [] ∧
    (runDeleteAction "t1" exDeleteState).mappings = [("t1", "e1")] ∧
    EventIndex.Get (runDeleteAction "t1" exDeleteState).mappings "t1" = "e1" :=
  ⟨rfl, rfl, rfl, rfl⟩

/-- C7 amended: for a task whose decided action is delete, the event is
resolved only by the remote lookup on the stored task identifier; when
found it is deleted remotely and the sweep schedule entry for the task
is removed, while the identity index is left entirely unchanged. -/
theorem c7_delete_amended (taskID : String) (st : SyncState)
    (hnd : (st.sweepEntries.map (fun e => e.uuid)).Nodup) :
    (runDeleteAction taskID st).mappings = st.mappings ∧
    (∀ e ∈ (runDeleteAction taskID st).sweepEntries, e.uuid ≠ taskID) ∧
    (∀ ev, GetEventByTaskID st.remote taskID = some ev →
        ev ∉ (runDeleteAction taskID st).remote) := by
  have hsw : (runDeleteAction taskID st).sweepEntries
      = Overdue.Remove taskID st.sweepEntries := by
    rcases h : GetEventByTaskID st.remote taskID with _ | ev <;>
      simp [runDeleteAction, h]
  refine ⟨?_, ?_, ?_⟩
  · rcases h : GetEventByTaskID st.remote taskID with _ | ev <;>
      simp [runDeleteAction, h]
  · intro e he
    rw [hsw] at he
    exact Overdue.Remove_uuid_not_mem taskID st.sweepEntries hnd e he
  · intro ev h
    simp only [runDeleteAction, h]
    intro hmem
    have := (List.mem_filter.1 hmem).2
    simp at this

/-- C7 witness: the amended delete behaviour at the concrete state whose
remote event, index mapping and sweep entry all refer to task t1. -/
theorem c7_delete_amended_witness :
    (runDeleteAction "t1" exDeleteState).mappings = exDeleteState.mappings ∧
    (∀ e ∈ (runDeleteAction "t1" exDeleteState).sweepEntries, e.uuid ≠ "t1") ∧
    (∀ ev, GetEventByTaskID exDeleteState.remote "t1" = some ev →
        ev ∉ (runDeleteAction "t1" exDeleteState).remote) :=
  c7_delete_amended "t1" exDeleteState (by decide)

/-! ## C8 -/

/-- C8: recording a mapping and looking it up returns the recorded event
id, and forgetting a mapping makes the lookup return the empty string,
the representation of an absent mapping. -/
theorem c8_index_roundtrip (m : List (String × String)) (t e : String) :
    EventIndex.Get (EventIndex.Set m t e) t = e ∧
    EventIndex.Get (EventIndex.Remove m t) t = "" := by
  constructor
  · rw [EventIndex.Set]
    by_cases h : EventIndex.Get m t = e
    · rw [if_pos h]; exact h
    · rw [if_neg h]; exact EventIndex.Get_mapAssign t e m
  · rw [EventIndex.Remove, EventIndex.Get]
    have hnone : ((m.filter fun kv => !(kv.1 == t)).find? (fun kv => kv.1 == t)) = none := by
      rw [List.find?_eq_none]
      intro kv hkv
      have := (List.mem_filter.1 hkv).2
      simp at this
      simp [this]
    rw [hnone]
    rfl

/-! ## C9 -/

/-- C9 counterexample: in the invocation trace with a sweep table, a
working calendar client and one input snapshot, the hook's own task is
processed, yet no sweep-table save occurs before that processing — the
save happens only in the deferred block at the end. -/
theorem c9_counterexample :
    Step.processHookTask ∈ mainSteps true true 1 ∧
    Step.saveSweepTable ∉
      (mainSteps true true 1).takeWhile (fun s => decide (s ≠ Step.processHookTask)) := by
  decide

/-- C9 amended: within one invocation with a sweep table, a working
client and input, the sweep pass completes before the hook's own task is
processed, and the sweep table is persisted once at the very end of the
invocation, after the hook's task is processed and the snapshot echoed. -/
theorem c9_ordering_amended (n : Nat) (hn : n ≠ 0) :
    mainSteps true true n =
      [Step.sweepPass, Step.processHookTask, Step.writeStdout, Step.saveSweepTable] := by
  simp [mainSteps, hn]

/-- C9 witness: the amended invocation ordering at one input snapshot. -/
theorem c9_ordering_amended_witness :
    mainSteps true true 1 =
      [Step.sweepPass, Step.processHookTask, Step.writeStdout, Step.saveSweepTable] :=
  c9_ordering_amended 1 (by decide)

/-! ## C10 -/

/-- C10: whenever the input stream held at least one snapshot, the
invocation trace contains exactly one write of the last snapshot to
stdout, whatever the state of the sweep table and the calendar client
(whose failure aborts the sync and delete actions). -/
theorem c10_stdout_once (hasSweepTable gClientOk : Bool) (n : Nat) (hn : n ≠ 0) :
    (mainSteps hasSweepTable gClientOk n).count Step.writeStdout = 1 := by
  rw [mainSteps, if_pos hn]
  rw [if_neg hn]
  cases hasSweepTable <;> cases gClientOk <;> decide

/-- C10 witness: exactly one stdout write with one input snapshot, a
sweep table and a working client. -/
theorem c10_stdout_once_witness :
    (mainSteps true true 1).count Step.writeStdout = 1 :=
  c10_stdout_once true true 1 (by decide)

/-! ## C2 -/

/-- C2 counterexample: a completed snapshot with all four of end, start,
scheduled and deadline absent does not fail — materialization succeeds,
anchoring the event's end on the current time. -/
theorem c2_counterexample :
    exTaskCompletedNoDates.status = "completed" ∧
    exTaskCompletedNoDates.endT = 0 ∧ exTaskCompletedNoDates.start = 0 ∧
    exTaskCompletedNoDates.scheduled = 0 ∧ exTaskCompletedNoDates.deadline = 0 ∧
    materializeOk
      (ConvertTaskToCalendarEvent 1000 none (fun _ => "") (fun _ => "") exTaskCompletedNoDates)
      = true :=
  ⟨rfl, rfl, rfl, rfl, rfl, rfl⟩

/-- C2 amended: for a snapshot with all four timestamps absent,
materialization fails with the no-schedulable-time error and returns no
event exactly when the status is not `completed`; a completed snapshot
instead succeeds, with the event's end anchored on the current time. -/
theorem c2_materialize_amended (now : Int) (cacheResult : Option Colors.Cache)
    (fmtDur fmtTime : Int → String) (task : MTask)
    (hend : task.endT = 0) (hstart : task.start = 0)
    (hsched : task.scheduled = 0) (hdead : task.deadline = 0) :
    (task.status ≠ "completed" →
      ConvertTaskToCalendarEvent now cacheResult fmtDur fmtTime task =
        Except.error ("task has no date usage (due, start, scheduled, or end): " ++ task.id)) ∧
    (task.status = "completed" →
      materializeOk (ConvertTaskToCalendarEvent now cacheResult fmtDur fmtTime task) = true ∧
      materializedEnd (ConvertTaskToCalendarEvent now cacheResult fmtDur fmtTime task)
        = some (fmtTime now)) := by
  constructor
  · intro hne
    simp [ConvertTaskToCalendarEvent, hne, hstart, hsched, hdead]
  · intro heq
    constructor
    · simp [ConvertTaskToCalendarEvent, materializeOk, heq, hend]
    · simp [ConvertTaskToCalendarEvent, materializedEnd, heq, hend]

/-- C2 witness: a dateless snapshot with status `deleted` is rejected
with the no-schedulable-time error. -/
theorem c2_materialize_amended_witness :
    ConvertTaskToCalendarEvent 1000 none (fun _ => "") (fun _ => "") exTaskDeleted =
      Except.error ("task has no date usage (due, start, scheduled, or end): "
        ++ exTaskDeleted.id) :=
  (c2_materialize_amended 1000 none (fun _ => "") (fun _ => "") exTaskDeleted
    rfl rfl rfl rfl).1 (by decide)

/-! ## C3 -/

/-- C3: on a color cache whose 11 distinct projects hold 11 distinct
palette colors, a request from a fresh non-empty project evicts exactly
the entry with the strictly oldest last-used time and hands its color to
the new project; and GetColorID always preserves distinctness of the
project names and of the assigned colors. -/
theorem c3_color_eviction :
    (∀ (now : Int) (c : Colors.Cache) (q : String) (act : Bool)
        (p : String × Colors.ProjectState),
      q ≠ "" → Colors.lookup c q = none →
      (c.map (fun kv => kv.1)).Nodup →
      (Colors.usedColors c).Nodup →
      c.length = 11 →
      (∀ e ∈ c, e.2.colorID ∈ Colors.palette) →
      p ∈ c → p.1 ≠ "" →
      (∀ e ∈ c, e ≠ p → p.2.lastModified < e.2.lastModified) →
      Colors.GetColorID now c q act =
        (p.2.colorID,
          c.filter (fun kv => decide (kv.1 ≠ p.1))
            ++ [(q, { colorID := p.2.colorID, activeTasks := 1, lastModified := now })])) ∧
    (∀ (now : Int) (c : Colors.Cache) (q : String) (act : Bool),
      (c.map (fun kv => kv.1)).Nodup → (Colors.usedColors c).Nodup →
      ((Colors.GetColorID now c q act).2.map (fun kv => kv.1)).Nodup ∧
      (Colors.usedColors (Colors.GetColorID now c q act).2).Nodup) := by
  constructor
  · intro now c q act p hq hqnone hknd hcnd hlen hpal hp hpname hmin
    have husub : Colors.usedColors c ⊆ Colors.palette := by
      intro col hcol
      obtain ⟨kv, hkv, rfl⟩ := List.mem_map.1 hcol
      exact hpal kv hkv
    have hulen : (Colors.usedColors c).length = 11 := by
      rw [Colors.usedColors, List.length_map, hlen]
    have hperm : List.Perm (Colors.usedColors c) Colors.palette :=
      (List.subperm_of_subset hcnd husub).perm_of_length_le (by rw [hulen]; rfl)
    have hsat : ∀ col ∈ Colors.palette, col ∈ Colors.usedColors c :=
      fun col hcol => hperm.symm.subset hcol
    have hfree : Colors.findFreeColor (Colors.usedColors c) Colors.palette = none :=
      (Colors.findFreeColor_eq_none _ Colors.palette).2 hsat
    have hsel : Colors.selectOldest c = some p :=
      Colors.selectOldest_unique_min c p hp hmin
    rw [Colors.GetColorID, if_neg hq, hqnone]
    show Colors.assignColor now c q = _
    rw [Colors.assignColor, hfree, hsel]
    show (if p.1 ≠ "" then _ else _) = _
    rw [if_pos hpname]
  · intro now c q act hknd hcnd
    rw [Colors.GetColorID]
    by_cases hq : q = ""
    · rw [if_pos hq]
      exact ⟨hknd, hcnd⟩
    · rw [if_neg hq]
      cases hlook : Colors.lookup c q with
      | some st =>
        show ((Colors.touch c q now).map (fun kv => kv.1)).Nodup ∧ _
        rw [Colors.touch_keys, Colors.touch_colors]
        exact ⟨hknd, hcnd⟩
      | none =>
        have hqmem : ∀ kv ∈ c, kv.1 ≠ q := Colors.lookup_eq_none c q hlook
        show ((Colors.assignColor now c q).2.map (fun kv => kv.1)).Nodup ∧ _
        rw [Colors.assignColor]
        cases hfree : Colors.findFreeColor (Colors.usedColors c) Colors.palette with
        | some id =>
          have hid : id ∉ Colors.usedColors c :=
            Colors.findFreeColor_some_not_used _ Colors.palette id hfree
          constructor
          · rw [List.map_append]
            apply nodup_append_singleton _ _ hknd
            intro hmem
            obtain ⟨kv, hkv, hkv1⟩ := List.mem_map.1 hmem
            exact hqmem kv hkv hkv1
          · rw [Colors.usedColors, List.map_append]
            apply nodup_append_singleton _ _ hcnd
            exact hid
        | none =>
          cases hsel : Colors.selectOldest c with
          | none => exact ⟨hknd, hcnd⟩
          | some oldest =>
            dsimp only
            by_cases hon : oldest.1 = ""
            · rw [if_neg (by simpa using hon)]
              exact ⟨hknd, hcnd⟩
            · rw [if_pos hon]
              have holdmem : oldest ∈ c := Colors.selectOldest_mem c oldest hsel
              have hfsub : (c.filter (fun kv => decide (kv.1 ≠ oldest.1))).Sublist c :=
                List.filter_sublist c
              constructor
              · rw [List.map_append]
                apply nodup_append_singleton _ _ ((hfsub.map _).nodup hknd)
                intro hmem
                obtain ⟨kv, hkv, hkv1⟩ := List.mem_map.1 hmem
                exact hqmem kv (hfsub.subset hkv) hkv1
              · rw [Colors.usedColors, List.map_append]
                apply nodup_append_singleton _ _ ((hfsub.map _).nodup hcnd)
                intro hmem
                obtain ⟨kv, hkv, hkv2⟩ := List.mem_map.1 hmem
                have hkvc : kv ∈ c := hfsub.subset hkv
                have hkvne : kv.1 ≠ oldest.1 := by
                  have := (List.mem_filter.1 hkv).2
                  simpa using this
                have hcnd' : (c.map (fun kv => kv.2.colorID)).Nodup := hcnd
                have : kv = oldest :=
                  List.inj_on_of_nodup_map hcnd' hkvc holdmem hkv2
                exact hkvne (by rw [this])

/-- C3 witness: with 11 projects saturating the palette, a request from
the fresh project zz evicts p1, the least recently touched, and hands it
p1's color "1". -/
theorem c3_color_eviction_witness :
    Colors.GetColorID 200 exColorCache "zz" true =
      ("1", exColorCache.filter (fun kv => decide (kv.1 ≠ "p1"))
        ++ [("zz", { colorID := "1", activeTasks := 1, lastModified := 200 })]) :=
  c3_color_eviction.1 200 exColorCache "zz" true
    ("p1", { colorID := "1", activeTasks := 1, lastModified := 10 })
    (by decide) (by decide) (by decide) (by decide) (by decide) (by decide)
    (by decide) (by decide) (by decide)

/-! ## C6 -/

/-- C6: if any of the four stored timestamp strings of the existing or
target event fails to parse, the diff/patch generator reports the error
to the caller and produces no patch. -/
theorem c6_malformed_timestamp (parse : String → Option Int)
    (existingEvent targetEvent : CalEvent)
    (h : parse existingEvent.startDT = none ∨ parse targetEvent.startDT = none ∨
        parse existingEvent.endDT = none ∨ parse targetEvent.endDT = none) :
    EventNeedsUpdate parse existingEvent targetEvent = none := by
  rw [EventNeedsUpdate]
  rcases hes : parse existingEvent.startDT with _ | es <;>
    rcases hts : parse targetEvent.startDT with _ | ts <;>
      rcases hee : parse existingEvent.endDT with _ | ee <;>
        rcases hte : parse targetEvent.endDT with _ | te <;>
          simp_all

/-- C6 witness: with a parser rejecting the stored junk timestamps, the
generator returns the error outcome and no patch. -/
theorem c6_malformed_timestamp_witness :
    EventNeedsUpdate (fun _ => none) exCalEvent exCalEvent = none :=
  c6_malformed_timestamp (fun _ => none) exCalEvent exCalEvent (Or.inl rfl)

end Taska
